import Mathlib

/-!
Shallow embedding of the `normdecimal` crate (`src/lib.rs`): a wrapper
`NormDecimal` around a raw decimal value that normalizes at every
construction point.

The raw decimal engine (`rust_decimal::Decimal`) is an external
collaborator whose source is not part of this repository; its operations
are modelled from the spec's description of the collaborator contract
(spec section 6): an arbitrary-precision signed decimal with sign,
mantissa digits and a scale, a `normalize` that removes superfluous
trailing fractional zeros, arithmetic where only division and modulo
can fail (on a zero divisor), value-based ordering and equality, a sign
setter, a text parser and a display format.

The wrapper `NormDecimal` and every operation on it are translated
directly from `src/lib.rs`.
-/

/-- Modelled from the spec: the external engine's raw decimal value —
"sign, integer digits, fractional digits, scale" (spec section 3), i.e.
the value `(if negative then -1 else 1) * mantissa / 10 ^ scale`. -/
structure Decimal where
  mantissa : Nat
  scale : Nat
  negative : Bool
deriving DecidableEq, Repr

namespace Decimal

/-- The mantissa with the sign applied. -/
def intMantissa (d : Decimal) : Int :=
  if d.negative then -(d.mantissa : Int) else (d.mantissa : Int)

/-- The mathematical (rational) value a raw decimal denotes. -/
def toRat (d : Decimal) : ℚ :=
  (d.intMantissa : ℚ) / 10 ^ d.scale

/-- Strip factors of 10 from the mantissa while the scale is positive:
returns the reduced mantissa together with the reduced scale. -/
def stripZeros : Nat → Nat → Nat × Nat
  | m, 0 => (m, 0)
  | m, s + 1 => if m % 10 = 0 then stripZeros (m / 10) s else (m, s + 1)

/-- Modelled from the spec: the engine's `normalize` — "canonicalizing a
decimal value's scale by removing superfluous trailing fractional zeros
while preserving its mathematical value" (glossary); a zero value
collapses to the canonical zero (positive sign, scale 0). -/
def normalize (d : Decimal) : Decimal :=
  if d.mantissa = 0 then ⟨0, 0, false⟩
  else
    let p := stripZeros d.mantissa d.scale
    ⟨p.1, p.2, d.negative⟩

/-- Modelled from the spec: the engine's conversion from a (signed)
integer — lossless, scale 0 (spec section 4.1). All of the wrapper's
integer-primitive conversions (u8..u64, i8..i64) factor through this. -/
def ofInt (n : Int) : Decimal :=
  ⟨n.natAbs, 0, decide (n < 0)⟩

/-- Modelled from the spec: the engine's sign setter — "sign
getter/setter" (spec section 6); sets the sign attribute only. -/
def setSignNegative (d : Decimal) (negative : Bool) : Decimal :=
  ⟨d.mantissa, d.scale, negative⟩

/-- Modelled from the spec: the engine's value-based comparison —
rescale both operands to a common scale and compare the signed
mantissas ("ordering/equality over raw values", spec section 6). -/
def cmp (a b : Decimal) : Ordering :=
  let s := max a.scale b.scale
  let la := a.intMantissa * 10 ^ (s - a.scale)
  let lb := b.intMantissa * 10 ^ (s - b.scale)
  if la < lb then .lt else if la = lb then .eq else .gt

/-- Modelled from the spec: the engine's addition — exact, at the
common scale of the two operands (arbitrary precision, spec section 1:
no overflow detection is in scope). -/
def add (a b : Decimal) : Decimal :=
  let s := max a.scale b.scale
  let i := a.intMantissa * 10 ^ (s - a.scale) + b.intMantissa * 10 ^ (s - b.scale)
  ⟨i.natAbs, s, decide (i < 0)⟩

/-- Modelled from the spec: the engine's negation — flips the sign
attribute of the raw value. -/
def neg (d : Decimal) : Decimal :=
  ⟨d.mantissa, d.scale, !d.negative⟩

/-- Modelled from the spec: the engine's subtraction — addition of the
negated right operand, exact at the common scale. -/
def sub (a b : Decimal) : Decimal :=
  Decimal.add a (Decimal.neg b)

/-- Modelled from the spec: the engine's multiplication — exact:
mantissas multiply, scales add, signs combine. -/
def mul (a b : Decimal) : Decimal :=
  ⟨a.mantissa * b.mantissa, a.scale + b.scale, Bool.xor a.negative b.negative⟩

/-- Modelled from the spec: the engine's division — fails exactly when
the divisor's raw value is zero ("div/rem may fail on zero divisor",
spec section 6); otherwise the quotient truncated to 28 extra
fractional digits. -/
def div (a b : Decimal) : Option Decimal :=
  if b.mantissa = 0 then none
  else
    some ⟨a.mantissa * 10 ^ (b.scale + 28) / b.mantissa, a.scale + 28,
          Bool.xor a.negative b.negative⟩

/-- Modelled from the spec: the engine's modulo — fails exactly when
the divisor's raw value is zero; otherwise the remainder of truncated
division, carrying the dividend's sign. -/
def rem (a b : Decimal) : Option Decimal :=
  if b.mantissa = 0 then none
  else
    let s := max a.scale b.scale
    some ⟨a.mantissa * 10 ^ (s - a.scale) % (b.mantissa * 10 ^ (s - b.scale)),
          s, a.negative⟩

/-- Modelled from the spec: the engine's `max` on two raw values
(receiver first): the larger by value comparison, the receiver on
ties. -/
def max (a b : Decimal) : Decimal :=
  if Decimal.cmp a b = .lt then b else a

/-- Modelled from the spec: the engine's `min` on two raw values
(receiver first): the smaller by value comparison, the receiver on
ties. -/
def min (a b : Decimal) : Decimal :=
  if Decimal.cmp a b = .gt then b else a

/-- Split a character list at the first dot, if any. -/
def breakDot : List Char → List Char × Option (List Char)
  | [] => ([], none)
  | c :: t =>
    if c = '.' then ([], some t)
    else
      let r := breakDot t
      (c :: r.1, r.2)

/-- Numeric value of a list of decimal digit characters. -/
def digitsVal (cs : List Char) : Nat :=
  cs.foldl (fun a c => a * 10 + (c.toNat - 48)) 0

/-- Modelled from the spec: the engine's text parser — "parse(text) →
raw | ParseError" (spec section 6): optional sign, decimal digits with
at most one interior point; fails on anything else (empty string,
invalid characters, spec section 4.1). -/
def parse (s : String) : Option Decimal :=
  let cs := s.toList
  let p : Bool × List Char :=
    match cs with
    | '-' :: t => (true, t)
    | '+' :: t => (false, t)
    | _ => (false, cs)
  let ip := (breakDot p.2).1
  match (breakDot p.2).2 with
  | none =>
    if ip ≠ [] ∧ ip.all Char.isDigit then some ⟨digitsVal ip, 0, p.1⟩ else none
  | some fp =>
    if ip ≠ [] ∧ fp ≠ [] ∧ ip.all Char.isDigit ∧ fp.all Char.isDigit then
      some ⟨digitsVal (ip ++ fp), fp.length, p.1⟩
    else none

/-- Modelled from the spec: the engine's human-readable display format —
sign, integer digits, and `scale` fractional digits (spec section 6). -/
def display (d : Decimal) : String :=
  let ds := (Nat.repr d.mantissa).toList
  let ds := List.replicate (d.scale + 1 - ds.length) '0' ++ ds
  let body :=
    if d.scale = 0 then ds
    else ds.take (ds.length - d.scale) ++ '.' :: ds.drop (ds.length - d.scale)
  String.mk ((if d.negative then ['-'] else []) ++ body)

end Decimal

/-- The wrapper type of `src/lib.rs`: `pub struct NormDecimal(Decimal)`. -/
structure NormDecimal where
  raw : Decimal
deriving DecidableEq, Repr

namespace NormDecimal

/-- From `src/lib.rs`: `impl From<Decimal> for NormDecimal` (and the
identical by-reference impl `From<&Decimal>`): `Self(value.normalize())`. -/
def fromDecimal (d : Decimal) : NormDecimal :=
  ⟨d.normalize⟩

/-- From `src/lib.rs`: `pub const ZERO: NormDecimal = NormDecimal(Decimal::ZERO)`. -/
def ZERO : NormDecimal := ⟨⟨0, 0, false⟩⟩

/-- From `src/lib.rs`: `pub const ONE: NormDecimal = NormDecimal(Decimal::ONE)`. -/
def ONE : NormDecimal := ⟨⟨1, 0, false⟩⟩

/-- From `src/lib.rs`: the `forward_from_impl!` conversions from the
integer primitives u8, i8, u16, i16, u32, i32, u64, i64, each
`Self::from(Decimal::from(value))`; every such primitive value embeds
into `Int`. -/
def ofInt (n : Int) : NormDecimal :=
  fromDecimal (Decimal.ofInt n)

/-- From `src/lib.rs`: `impl FromStr`: `Decimal::from_str(s).map(Into::into)`. -/
def fromStr (s : String) : Option NormDecimal :=
  (Decimal.parse s).map fromDecimal

/-- From `src/lib.rs`: `impl Display`: forwards to the raw value's display. -/
def display (a : NormDecimal) : String :=
  a.raw.display

/-- From `src/lib.rs`: `#[serde(transparent)]` `Serialize` — the
external representation the wrapper emits is exactly the raw decimal
value, with no wrapper envelope or tag. -/
def serialize (a : NormDecimal) : Decimal :=
  a.raw

/-- From `src/lib.rs`: `impl Deserialize`: decode a raw decimal and
route it through normalization (`.map(Into::into)`). -/
def deserialize (d : Decimal) : NormDecimal :=
  fromDecimal d

/-- From `src/lib.rs`: `pub fn set_sign_negative(&mut self, negative: bool)`:
delegates to the raw value's sign setter, bypassing normalization. -/
def setSignNegative (a : NormDecimal) (negative : Bool) : NormDecimal :=
  ⟨a.raw.setSignNegative negative⟩

/-- From `src/lib.rs`: `pub fn set_sign_positive(&mut self, positive: bool)`:
the engine defines it as `set_sign_negative(!positive)`. -/
def setSignPositive (a : NormDecimal) (positive : Bool) : NormDecimal :=
  ⟨a.raw.setSignNegative (!positive)⟩

/-- From `src/lib.rs`: `pub fn max(self, other: impl Into<Decimal>)`:
`Self::from(other.into().max(self.0))` — the operand is converted into
a raw `Decimal` (not a wrapper), the engine's max runs on the two raw
values, and the result is re-wrapped through the normalizing `From`. -/
def max (a : NormDecimal) (other : Decimal) : NormDecimal :=
  fromDecimal (Decimal.max other a.raw)

/-- From `src/lib.rs`: `pub fn min(self, other: impl Into<Decimal>)`:
`Self::from(other.into().min(self.0))`. -/
def min (a : NormDecimal) (other : Decimal) : NormDecimal :=
  fromDecimal (Decimal.min other a.raw)

/-- From `src/lib.rs`: `impl Add`: the right operand is converted into
the wrapper, the raw values are added by the engine, and the result is
re-wrapped through the normalizing `From`. -/
def add (a b : NormDecimal) : NormDecimal :=
  fromDecimal (Decimal.add a.raw b.raw)

/-- From `src/lib.rs`: `impl Sub`: `Self::from(self.0 - rhs.into().0)`. -/
def sub (a b : NormDecimal) : NormDecimal :=
  fromDecimal (Decimal.sub a.raw b.raw)

/-- From `src/lib.rs`: `impl Mul`: `Self::from(self.0 * rhs.into().0)`. -/
def mul (a b : NormDecimal) : NormDecimal :=
  fromDecimal (Decimal.mul a.raw b.raw)

/-- From `src/lib.rs`: `impl Neg`: `Self::from(-self.0)`. -/
def neg (a : NormDecimal) : NormDecimal :=
  fromDecimal (Decimal.neg a.raw)

/-- From `src/lib.rs`: `impl Div`: the engine's division on the raw
values (which fails on a zero divisor), re-wrapped through `From`. -/
def div (a b : NormDecimal) : Option NormDecimal :=
  (Decimal.div a.raw b.raw).map fromDecimal

/-- From `src/lib.rs`: `impl Rem`: the engine's modulo on the raw
values (which fails on a zero divisor), re-wrapped through `From`. -/
def rem (a b : NormDecimal) : Option NormDecimal :=
  (Decimal.rem a.raw b.raw).map fromDecimal

/-- From `src/lib.rs`: `impl Sum`: `iter.fold(NormDecimal::ZERO, Add::add)`. -/
def sum (l : List NormDecimal) : NormDecimal :=
  l.foldl add ZERO

/-- From `src/lib.rs`: `impl Product`: `iter.fold(NormDecimal::ONE, Mul::mul)`. -/
def product (l : List NormDecimal) : NormDecimal :=
  l.foldl mul ONE

/-- The derived `PartialOrd`/`Ord` of the wrapper delegate to the raw
value's comparison: `a < b`. -/
def lt (a b : NormDecimal) : Prop :=
  Decimal.cmp a.raw b.raw = .lt

/-- The derived `PartialEq`/`Eq` of the wrapper delegate to the raw
value's comparison: `a == b`. -/
def eqv (a b : NormDecimal) : Prop :=
  Decimal.cmp a.raw b.raw = .eq

instance (a b : NormDecimal) : Decidable (lt a b) := by
  unfold lt; infer_instance

instance (a b : NormDecimal) : Decidable (eqv a b) := by
  unfold eqv; infer_instance

/-- Invariant I1 of the spec at one value: the stored raw decimal is in
canonical form, i.e. it equals its own normalization. -/
def IsCanonical (a : NormDecimal) : Prop :=
  a.raw.normalize = a.raw

instance (a : NormDecimal) : Decidable (IsCanonical a) := by
  unfold IsCanonical; infer_instance

end NormDecimal

/-- The arithmetic operator family of `src/lib.rs` (add, subtract,
multiply, divide, modulo, negate), viewed as one binary evaluator; the
unary negate ignores its second operand. -/
inductive ArithOp where
  | add | sub | mul | div | rem | neg
deriving DecidableEq, Repr

/-- Apply one of the arithmetic operators; `none` models the operator
panicking (the only fallible ones are division and modulo). -/
def NormDecimal.applyOp : ArithOp → NormDecimal → NormDecimal → Option NormDecimal
  | .add, a, b => some (a.add b)
  | .sub, a, b => some (a.sub b)
  | .mul, a, b => some (a.mul b)
  | .div, a, b => a.div b
  | .rem, a, b => a.rem b
  | .neg, a, _ => some a.neg

namespace Decimal

theorem stripZeros_snd_le (s m : Nat) : (stripZeros m s).2 ≤ s := by
  induction s generalizing m with
  | zero => simp [stripZeros]
  | succ n ih =>
    simp only [stripZeros]
    split
    · exact le_trans (ih _) (Nat.le_succ n)
    · exact le_refl _

theorem stripZeros_fst_ne_zero (s m : Nat) (h : m ≠ 0) :
    (stripZeros m s).1 ≠ 0 := by
  induction s generalizing m with
  | zero => simpa [stripZeros] using h
  | succ n ih =>
    simp only [stripZeros]
    split
    · next hmod => exact ih (m / 10) (by omega)
    · exact h

theorem stripZeros_mod (s m : Nat) (h : 0 < (stripZeros m s).2) :
    (stripZeros m s).1 % 10 ≠ 0 := by
  induction s generalizing m with
  | zero => simp [stripZeros] at h
  | succ n ih =>
    simp only [stripZeros] at h ⊢
    split
    · next hmod =>
      rw [if_pos hmod] at h
      exact ih (m / 10) h
    · next hmod => exact hmod

theorem stripZeros_fixed (s m : Nat) :
    stripZeros (stripZeros m s).1 (stripZeros m s).2 = stripZeros m s := by
  induction s generalizing m with
  | zero => simp [stripZeros]
  | succ n ih =>
    simp only [stripZeros]
    split
    · exact ih (m / 10)
    · next hmod => simp [stripZeros, hmod]

theorem normalize_normalize (d : Decimal) :
    (d.normalize).normalize = d.normalize := by
  by_cases h : d.mantissa = 0
  · simp [normalize, h]
  · have h1 : (stripZeros d.mantissa d.scale).1 ≠ 0 :=
      stripZeros_fst_ne_zero d.scale d.mantissa h
    simp only [normalize, if_neg h, if_neg h1]
    rw [stripZeros_fixed]

theorem normalize_fixed_mod (d : Decimal) (hd : d.normalize = d)
    (hs : 0 < d.scale) : d.mantissa ≠ 0 ∧ d.mantissa % 10 ≠ 0 := by
  by_cases h : d.mantissa = 0
  · exfalso
    rw [normalize, if_pos h] at hd
    rw [← hd] at hs
    simp at hs
  · refine ⟨h, ?_⟩
    rw [normalize, if_neg h] at hd
    have h1 : (stripZeros d.mantissa d.scale).1 = d.mantissa :=
      congrArg Decimal.mantissa hd
    have h2 : (stripZeros d.mantissa d.scale).2 = d.scale :=
      congrArg Decimal.scale hd
    have := stripZeros_mod d.scale d.mantissa (by rw [h2]; exact hs)
    rwa [h1] at this

theorem intMantissa_natAbs (d : Decimal) : d.intMantissa.natAbs = d.mantissa := by
  cases hb : d.negative <;> simp [intMantissa, hb]

theorem toRat_eq_iff (a b : Decimal) :
    a.toRat = b.toRat ↔
      a.intMantissa * 10 ^ b.scale = b.intMantissa * 10 ^ a.scale := by
  have ha : ((10 : ℚ) ^ a.scale) ≠ 0 := by positivity
  have hb : ((10 : ℚ) ^ b.scale) ≠ 0 := by positivity
  rw [toRat, toRat, div_eq_div_iff ha hb]
  constructor
  · intro h
    exact_mod_cast h
  · intro h
    exact_mod_cast h

theorem scaledInt_cast (a : Decimal) (s : Nat) (h : a.scale ≤ s) :
    ((a.intMantissa * 10 ^ (s - a.scale) : ℤ) : ℚ) = a.toRat * 10 ^ s := by
  have hpow : (10 : ℚ) ^ s = 10 ^ a.scale * 10 ^ (s - a.scale) := by
    rw [← pow_add]
    congr 1
    omega
  have ha : ((10 : ℚ) ^ a.scale) ≠ 0 := by positivity
  rw [toRat, hpow]
  push_cast
  field_simp
  ring

end Decimal

namespace Decimal

theorem cmp_eq_lt_iff (a b : Decimal) :
    cmp a b = Ordering.lt ↔ a.toRat < b.toRat := by
  have hs : (0 : ℚ) < 10 ^ Max.max a.scale b.scale := by positivity
  have hca := scaledInt_cast a (Max.max a.scale b.scale) (le_max_left _ _)
  have hcb := scaledInt_cast b (Max.max a.scale b.scale) (le_max_right _ _)
  have key : a.intMantissa * 10 ^ (Max.max a.scale b.scale - a.scale) <
      b.intMantissa * 10 ^ (Max.max a.scale b.scale - b.scale) ↔
      a.toRat < b.toRat := by
    constructor
    · intro h
      have hq : ((a.intMantissa * 10 ^ (Max.max a.scale b.scale - a.scale) : ℤ) : ℚ) <
          ((b.intMantissa * 10 ^ (Max.max a.scale b.scale - b.scale) : ℤ) : ℚ) := by
        exact_mod_cast h
      rw [hca, hcb] at hq
      exact (mul_lt_mul_right hs).mp hq
    · intro h
      have hq := (mul_lt_mul_right hs).mpr h
      rw [← hca, ← hcb] at hq
      exact_mod_cast hq
  simp only [cmp]
  split_ifs with h1 h2
  · simp [key.mp h1]
  · have hne : ¬ a.toRat < b.toRat := by
      intro hc
      rw [← key] at hc
      rw [h2] at hc
      exact lt_irrefl _ hc
    simp [hne]
  · have hne : ¬ a.toRat < b.toRat := fun hc => h1 (key.mpr hc)
    simp [hne]

theorem cmp_eq_eq_iff (a b : Decimal) :
    cmp a b = Ordering.eq ↔ a.toRat = b.toRat := by
  have hs : (0 : ℚ) < 10 ^ Max.max a.scale b.scale := by positivity
  have hca := scaledInt_cast a (Max.max a.scale b.scale) (le_max_left _ _)
  have hcb := scaledInt_cast b (Max.max a.scale b.scale) (le_max_right _ _)
  have key : a.intMantissa * 10 ^ (Max.max a.scale b.scale - a.scale) =
      b.intMantissa * 10 ^ (Max.max a.scale b.scale - b.scale) ↔
      a.toRat = b.toRat := by
    constructor
    · intro h
      have hq : ((a.intMantissa * 10 ^ (Max.max a.scale b.scale - a.scale) : ℤ) : ℚ) =
          ((b.intMantissa * 10 ^ (Max.max a.scale b.scale - b.scale) : ℤ) : ℚ) := by
        exact_mod_cast h
      rw [hca, hcb] at hq
      exact mul_right_cancel₀ (ne_of_gt hs) hq
    · intro h
      have hq : a.toRat * 10 ^ Max.max a.scale b.scale =
          b.toRat * 10 ^ Max.max a.scale b.scale := by
        rw [h]
      rw [← hca, ← hcb] at hq
      exact_mod_cast hq
  simp only [cmp]
  split_ifs with h1 h2
  · have hne : ¬ a.toRat = b.toRat := fun hc => (ne_of_lt h1) (key.mpr hc)
    simp [hne]
  · simp [key.mp h2]
  · have hne : ¬ a.toRat = b.toRat := fun hc => h2 (key.mpr hc)
    simp [hne]

theorem toRat_eq_zero_iff (d : Decimal) : d.toRat = 0 ↔ d.mantissa = 0 := by
  rw [toRat, div_eq_zero_iff]
  have h10 : ((10 : ℚ) ^ d.scale) ≠ 0 := by positivity
  rw [or_iff_left h10, Int.cast_eq_zero]
  unfold intMantissa
  cases hb : d.negative <;> simp

theorem canonical_scale_min (d e : Decimal) (hd : d.normalize = d)
    (he : e.toRat = d.toRat) : d.scale ≤ e.scale := by
  by_contra hc
  push_neg at hc
  have hs : 0 < d.scale := lt_of_le_of_lt (Nat.zero_le _) hc
  obtain ⟨hm0, hmod⟩ := normalize_fixed_mod d hd hs
  have heq : e.intMantissa * 10 ^ d.scale = d.intMantissa * 10 ^ e.scale :=
    (toRat_eq_iff e d).mp he
  have hnat : e.mantissa * 10 ^ d.scale = d.mantissa * 10 ^ e.scale := by
    have h := congrArg Int.natAbs heq
    simpa [Int.natAbs_mul, Int.natAbs_pow, intMantissa_natAbs] using h
  have hsplit : (10 : ℕ) ^ d.scale = 10 ^ e.scale * 10 ^ (d.scale - e.scale) := by
    rw [← pow_add]
    congr 1
    omega
  rw [hsplit, ← mul_assoc] at hnat
  have hp : 0 < (10 : ℕ) ^ e.scale := by positivity
  rw [mul_right_comm] at hnat
  have hcancel : e.mantissa * 10 ^ (d.scale - e.scale) = d.mantissa :=
    Nat.eq_of_mul_eq_mul_right hp hnat
  have hdvd : 10 ∣ d.mantissa := by
    rw [← hcancel]
    have hne : d.scale - e.scale ≠ 0 := by omega
    exact Dvd.dvd.mul_left (dvd_pow_self 10 hne) _
  obtain ⟨k, hk⟩ := hdvd
  exact hmod (by omega)

theorem max_or (a b : Decimal) : Decimal.max a b = a ∨ Decimal.max a b = b := by
  unfold Decimal.max
  split_ifs
  · exact Or.inr rfl
  · exact Or.inl rfl

theorem min_or (a b : Decimal) : Decimal.min a b = a ∨ Decimal.min a b = b := by
  unfold Decimal.min
  split_ifs
  · exact Or.inr rfl
  · exact Or.inl rfl

end Decimal

namespace NormDecimal

theorem fromDecimal_canonical (d : Decimal) : (fromDecimal d).IsCanonical :=
  Decimal.normalize_normalize d

theorem fromDecimal_of_canonical (d : Decimal) (h : d.normalize = d) :
    fromDecimal d = ⟨d⟩ := by
  unfold fromDecimal
  rw [h]

end NormDecimal

/-- C1: Normalization invariant I1 — every `NormDecimal` produced at an
observable point (conversion from an integer primitive, `From` over a
raw `Decimal`, text parsing, any arithmetic operator, deserialization)
stores a raw decimal in canonical form: it equals its own normalization,
and its scale is the minimum scale representing the value exactly (last
conjunct: a canonical raw decimal has scale at most that of any raw
decimal with the same mathematical value). -/
theorem normdecimal_I1_canonical (n : Int) (d e : Decimal) (s : String)
    (a b : NormDecimal) :
    (NormDecimal.ofInt n).IsCanonical ∧
    (NormDecimal.fromDecimal d).IsCanonical ∧
    (∀ x, NormDecimal.fromStr s = some x → x.IsCanonical) ∧
    (NormDecimal.add a b).IsCanonical ∧
    (NormDecimal.sub a b).IsCanonical ∧
    (NormDecimal.mul a b).IsCanonical ∧
    (∀ x, NormDecimal.div a b = some x → x.IsCanonical) ∧
    (∀ x, NormDecimal.rem a b = some x → x.IsCanonical) ∧
    (NormDecimal.neg a).IsCanonical ∧
    (NormDecimal.deserialize d).IsCanonical ∧
    (d.normalize = d → e.toRat = d.toRat → d.scale ≤ e.scale) := by
  refine ⟨NormDecimal.fromDecimal_canonical _, NormDecimal.fromDecimal_canonical _,
    ?_, NormDecimal.fromDecimal_canonical _, NormDecimal.fromDecimal_canonical _,
    NormDecimal.fromDecimal_canonical _, ?_, ?_,
    NormDecimal.fromDecimal_canonical _, NormDecimal.fromDecimal_canonical _,
    Decimal.canonical_scale_min d e⟩
  · intro x hx
    unfold NormDecimal.fromStr at hx
    obtain ⟨y, -, hy⟩ := Option.map_eq_some'.mp hx
    rw [← hy]
    exact NormDecimal.fromDecimal_canonical y
  · intro x hx
    unfold NormDecimal.div at hx
    obtain ⟨y, -, hy⟩ := Option.map_eq_some'.mp hx
    rw [← hy]
    exact NormDecimal.fromDecimal_canonical y
  · intro x hx
    unfold NormDecimal.rem at hx
    obtain ⟨y, -, hy⟩ := Option.map_eq_some'.mp hx
    rw [← hy]
    exact NormDecimal.fromDecimal_canonical y

/-- Witness for C1 at concrete inputs: parsing "2.50", dividing one by
two, taking seven modulo two, and the minimal-scale conjunct at the
pair 1.5 / 1.50. -/
theorem normdecimal_I1_canonical_witness :
    (⟨(⟨25, 1, false⟩ : Decimal)⟩ : NormDecimal).IsCanonical ∧
    (⟨(⟨5, 1, false⟩ : Decimal)⟩ : NormDecimal).IsCanonical ∧
    (⟨(⟨1, 0, false⟩ : Decimal)⟩ : NormDecimal).IsCanonical ∧
    (⟨15, 1, false⟩ : Decimal).scale ≤ (⟨150, 2, false⟩ : Decimal).scale := by
  have h1 := normdecimal_I1_canonical 1 ⟨15, 1, false⟩ ⟨150, 2, false⟩ "2.50"
    (NormDecimal.ofInt 1) (NormDecimal.ofInt 2)
  have h2 := normdecimal_I1_canonical 1 ⟨15, 1, false⟩ ⟨150, 2, false⟩ "2.50"
    (NormDecimal.ofInt 7) (NormDecimal.ofInt 2)
  obtain ⟨-, -, hstr, -, -, -, hdiv, -, -, -, hmin⟩ := h1
  obtain ⟨-, -, -, -, -, -, -, hrem, -, -, -⟩ := h2
  exact ⟨hstr _ (by decide), hdiv _ (by decide), hrem _ (by decide),
    hmin (by decide) (by norm_num [Decimal.toRat, Decimal.intMantissa])⟩

/-- C2: an arithmetic operator application fails exactly when the
operator is division or modulo and the right-hand operand's raw value
is zero; add, subtract, multiply and negate are total functions of the
embedding, so they never fail. -/
theorem normdecimal_arith_failure_iff_div_rem_zero (op : ArithOp)
    (a b : NormDecimal) :
    NormDecimal.applyOp op a b = none ↔
      ((op = ArithOp.div ∨ op = ArithOp.rem) ∧ b.raw.toRat = 0) := by
  have hz := Decimal.toRat_eq_zero_iff b.raw
  cases op with
  | add => simp [NormDecimal.applyOp]
  | sub => simp [NormDecimal.applyOp]
  | mul => simp [NormDecimal.applyOp]
  | neg => simp [NormDecimal.applyOp]
  | div =>
    simp only [NormDecimal.applyOp, NormDecimal.div, Decimal.div]
    by_cases h : b.raw.mantissa = 0
    · simp [h, hz]
    · simp [h, hz]
  | rem =>
    simp only [NormDecimal.applyOp, NormDecimal.rem, Decimal.rem]
    by_cases h : b.raw.mantissa = 0
    · simp [h, hz]
    · simp [h, hz]

/-- C3: round-trip serialization — serialization is transparent (the
external representation is exactly the bare raw decimal, no wrapper
envelope, so its text encoding coincides with the raw value's own), and
deserializing the serialization of a normalized value gives it back. -/
theorem normdecimal_serialization_roundtrip (a : NormDecimal)
    (h : a.IsCanonical) :
    NormDecimal.serialize a = a.raw ∧
    NormDecimal.deserialize (NormDecimal.serialize a) = a ∧
    Decimal.display (NormDecimal.serialize a) = Decimal.display a.raw := by
  obtain ⟨r⟩ := a
  exact ⟨rfl, NormDecimal.fromDecimal_of_canonical r h, rfl⟩

/-- Witness for C3 at the value 5. -/
theorem normdecimal_serialization_roundtrip_witness :
    NormDecimal.deserialize (NormDecimal.serialize (NormDecimal.ofInt 5)) =
      NormDecimal.ofInt 5 :=
  (normdecimal_serialization_roundtrip (NormDecimal.ofInt 5) (by decide)).2.1

/-- C4: ordering consistency — the wrapper's comparison agrees with the
mathematical order on the represented values, its equality with
mathematical equality, and the values parsed from "2" and "2.00" are
one and the same value (hence compare equal and hash identically under
any hash function of the value). -/
theorem normdecimal_ordering_consistency (a b x y : NormDecimal)
    (hsh : NormDecimal → Nat) :
    (NormDecimal.lt a b ↔ a.raw.toRat < b.raw.toRat) ∧
    (NormDecimal.eqv a b ↔ a.raw.toRat = b.raw.toRat) ∧
    (NormDecimal.fromStr "2" = some x → NormDecimal.fromStr "2.00" = some y →
      x = y ∧ NormDecimal.eqv x y ∧ hsh x = hsh y) := by
  refine ⟨Decimal.cmp_eq_lt_iff a.raw b.raw, Decimal.cmp_eq_eq_iff a.raw b.raw, ?_⟩
  intro hx hy
  have h2 : NormDecimal.fromStr "2" = some ⟨⟨2, 0, false⟩⟩ := by decide
  have h200 : NormDecimal.fromStr "2.00" = some ⟨⟨2, 0, false⟩⟩ := by decide
  rw [h2] at hx
  rw [h200] at hy
  injection hx with hx
  injection hy with hy
  subst hx
  subst hy
  exact ⟨rfl, by decide, rfl⟩

/-- Witness for C4: the parse results of "2" and "2.00" coincide. -/
theorem normdecimal_ordering_consistency_witness :
    (⟨(⟨2, 0, false⟩ : Decimal)⟩ : NormDecimal) = ⟨⟨2, 0, false⟩⟩ ∧
    NormDecimal.eqv ⟨⟨2, 0, false⟩⟩ ⟨⟨2, 0, false⟩⟩ ∧
    (fun _ => (0 : Nat)) (⟨(⟨2, 0, false⟩ : Decimal)⟩ : NormDecimal) =
      (fun _ => (0 : Nat)) (⟨(⟨2, 0, false⟩ : Decimal)⟩ : NormDecimal) :=
  (normdecimal_ordering_consistency NormDecimal.ZERO NormDecimal.ONE
    ⟨⟨2, 0, false⟩⟩ ⟨⟨2, 0, false⟩⟩ (fun _ => 0)).2.2 (by decide) (by decide)

/-- C5: min/max delegate to the engine's min/max on the two raw values
and re-wrap through the normalizing conversion; the result is in
normalized form, and when both operands are normalized on entry the
re-wrapping is the identity on the chosen raw value. -/
theorem normdecimal_min_max_delegate (a b : NormDecimal) :
    NormDecimal.max a b.raw = NormDecimal.fromDecimal (Decimal.max b.raw a.raw) ∧
    NormDecimal.min a b.raw = NormDecimal.fromDecimal (Decimal.min b.raw a.raw) ∧
    (NormDecimal.max a b.raw).IsCanonical ∧
    (NormDecimal.min a b.raw).IsCanonical ∧
    (a.IsCanonical → b.IsCanonical →
      (NormDecimal.max a b.raw).raw = Decimal.max b.raw a.raw ∧
      (NormDecimal.min a b.raw).raw = Decimal.min b.raw a.raw) := by
  refine ⟨rfl, rfl, NormDecimal.fromDecimal_canonical _,
    NormDecimal.fromDecimal_canonical _, ?_⟩
  intro ha hb
  constructor
  · show (Decimal.max b.raw a.raw).normalize = Decimal.max b.raw a.raw
    rcases Decimal.max_or b.raw a.raw with h | h
    · rw [h]
      exact hb
    · rw [h]
      exact ha
  · show (Decimal.min b.raw a.raw).normalize = Decimal.min b.raw a.raw
    rcases Decimal.min_or b.raw a.raw with h | h
    · rw [h]
      exact hb
    · rw [h]
      exact ha

/-- Witness for C5 at the operands 1 and 2. -/
theorem normdecimal_min_max_delegate_witness :
    (NormDecimal.max (NormDecimal.ofInt 1) (NormDecimal.ofInt 2).raw).raw =
      Decimal.max (NormDecimal.ofInt 2).raw (NormDecimal.ofInt 1).raw ∧
    (NormDecimal.min (NormDecimal.ofInt 1) (NormDecimal.ofInt 2).raw).raw =
      Decimal.min (NormDecimal.ofInt 2).raw (NormDecimal.ofInt 1).raw :=
  (normdecimal_min_max_delegate (NormDecimal.ofInt 1)
    (NormDecimal.ofInt 2)).2.2.2.2 (by decide) (by decide)

/-- C6: summation is the left fold of the add operator from the ZERO
constant and product the left fold of multiply from ONE; the empty sum
is ZERO, the empty product ONE, the sum of [1, 2, 3] is 6, and the
product of [2, 3, 4] is 24. -/
theorem normdecimal_sum_product_folds :
    (∀ l : List NormDecimal,
      NormDecimal.sum l = l.foldl NormDecimal.add NormDecimal.ZERO) ∧
    (∀ l : List NormDecimal,
      NormDecimal.product l = l.foldl NormDecimal.mul NormDecimal.ONE) ∧
    NormDecimal.sum [] = NormDecimal.ZERO ∧
    NormDecimal.product [] = NormDecimal.ONE ∧
    NormDecimal.sum [NormDecimal.ofInt 1, NormDecimal.ofInt 2, NormDecimal.ofInt 3] =
      NormDecimal.ofInt 6 ∧
    NormDecimal.product [NormDecimal.ofInt 2, NormDecimal.ofInt 3, NormDecimal.ofInt 4] =
      NormDecimal.ofInt 24 :=
  ⟨fun _ => rfl, fun _ => rfl, rfl, rfl, by decide, by decide⟩

/-- C7: the sign-forcing operations change only the sign attribute —
mantissa and scale are untouched for every input (normalized or not),
so no normalization step runs — and forcing negative then positive on
5 restores the original value. -/
theorem normdecimal_sign_force_frame (a : NormDecimal) (q p : Bool) :
    (NormDecimal.setSignNegative a q).raw.mantissa = a.raw.mantissa ∧
    (NormDecimal.setSignNegative a q).raw.scale = a.raw.scale ∧
    (NormDecimal.setSignNegative a q).raw.negative = q ∧
    NormDecimal.setSignPositive a p = NormDecimal.setSignNegative a (!p) ∧
    NormDecimal.setSignPositive
      (NormDecimal.setSignNegative (NormDecimal.ofInt 5) true) true =
      NormDecimal.ofInt 5 :=
  ⟨rfl, rfl, rfl, rfl, by decide⟩

/-- C8: representation independence — parsing "1.50" and "1.5" yields
the same wrapper value, hence identical display strings and identical
serialized forms. -/
theorem normdecimal_representation_independence :
    NormDecimal.fromStr "1.50" = NormDecimal.fromStr "1.5" ∧
    Option.map NormDecimal.display (NormDecimal.fromStr "1.50") =
      Option.map NormDecimal.display (NormDecimal.fromStr "1.5") ∧
    Option.map NormDecimal.serialize (NormDecimal.fromStr "1.50") =
      Option.map NormDecimal.serialize (NormDecimal.fromStr "1.5") ∧
    NormDecimal.fromStr "1.5" = some ⟨⟨15, 1, false⟩⟩ := by
  refine ⟨by decide, ?_, by decide, by decide⟩
  rfl

/-- C9: forcing negative sign on the ZERO constant (equivalently
forcing positive sign with `false`) sets the stored sign flag but the
result still compares equal to ZERO under the exposed value-based
equality and ordering. -/
theorem normdecimal_negative_zero_compares_equal :
    (NormDecimal.setSignNegative NormDecimal.ZERO true).raw.negative = true ∧
    NormDecimal.setSignNegative NormDecimal.ZERO true =
      NormDecimal.setSignPositive NormDecimal.ZERO false ∧
    NormDecimal.eqv (NormDecimal.setSignNegative NormDecimal.ZERO true)
      NormDecimal.ZERO ∧
    Decimal.cmp (NormDecimal.setSignNegative NormDecimal.ZERO true).raw
      NormDecimal.ZERO.raw = Ordering.eq ∧
    ¬ NormDecimal.lt (NormDecimal.setSignNegative NormDecimal.ZERO true)
      NormDecimal.ZERO ∧
    ¬ NormDecimal.lt NormDecimal.ZERO
      (NormDecimal.setSignNegative NormDecimal.ZERO true) :=
  ⟨rfl, rfl, by decide, by decide, by decide, by decide⟩

/-- C10: min/max accept a raw `Decimal` operand (anything convertible
into the raw type), run the engine's min/max on it without normalizing
it first, and the re-wrapped result is normalized for every operand,
canonical or not, because the chosen raw value passes through the
normalizing conversion. -/
theorem normdecimal_min_max_raw_operand_normalized (a : NormDecimal)
    (d : Decimal) :
    NormDecimal.max a d = NormDecimal.fromDecimal (Decimal.max d a.raw) ∧
    NormDecimal.min a d = NormDecimal.fromDecimal (Decimal.min d a.raw) ∧
    (NormDecimal.max a d).IsCanonical ∧
    (NormDecimal.min a d).IsCanonical :=
  ⟨rfl, rfl, NormDecimal.fromDecimal_canonical _, NormDecimal.fromDecimal_canonical _⟩
